import Mathlib

/-!
Verification of `src/sst/overrides/nextsite.js` against its design
specification.  The file shallowly embeds the synthesis logic of the
`NextSite` / `CustomEdgeFunction` classes: pure string manipulation is
translated directly, and the stateful resource-creation calls of the CDK
primitive layer are modelled as explicit state passing over registries
keyed by logical identifiers (create-vs-update decided by identifier
equality, per the spec's external-interface section).
-/

set_option autoImplicit false

namespace NextSiteSpec

/-- A packaged code payload, a sequence of bytes. -/
abbrev Payload := List Nat

/-- First-match lookup in an association list keyed by strings; this is the
semantics of reading a property of a JS object represented as an ordered
key-value list. -/
def lookupA {β : Type} (l : List (String × β)) (k : String) : Option β :=
  (l.find? (fun kv => kv.1 == k)).map (fun kv => kv.2)

@[simp] theorem lookupA_nil {β : Type} (k : String) : lookupA ([] : List (String × β)) k = none := rfl

theorem lookupA_cons {β : Type} (k0 : String) (v0 : β) (rest : List (String × β)) (k : String) :
    lookupA ((k0, v0) :: rest) k = if k0 == k then some v0 else lookupA rest k := by
  simp only [lookupA, List.find?]
  by_cases h : k0 == k <;> simp [h]

/-- Modelled from the spec: `trimFromStart` is inherited by
`CustomEdgeFunction` from the generic edge-function layer and is not among
this repository's sources; per the spec it trims a string from its start
(never the end) so that at most `maxLength` characters remain, preserving
the trailing naming segments. -/
def trimFromStart (s : String) (maxLength : Nat) : String :=
  String.mk (s.data.drop (s.data.length - maxLength))

theorem trimFromStart_length (s : String) (maxLength : Nat) :
    (trimFromStart s maxLength).length = min s.length maxLength := by
  simp only [trimFromStart, String.length, List.length_drop]
  omega

/-- From the source (`createVersionInUsEast1`, the lazily produced logical
id): the version resource's logical id is the original logical id trimmed
from the start to `255 - 32` characters, with the content hash of the
function appended.  The content hash itself (`calculateHash`, inherited,
not in this repository's sources) is kept abstract as a parameter. -/
def deriveLogicalId (hash : Payload → String) (originalLogicalId : String) (fn : Payload) : String :=
  trimFromStart originalLogicalId (255 - 32) ++ hash fn

/-- The last 32 characters of a string; on a derived logical id this is the
content-hash suffix. -/
def hashSuffix (s : String) : String :=
  String.mk (s.data.drop (s.data.length - 32))

theorem hashSuffix_deriveLogicalId (hash : Payload → String) (base : String) (fn : Payload)
    (h : (hash fn).length = 32) :
    hashSuffix (deriveLogicalId hash base fn) = hash fn := by
  simp only [hashSuffix, deriveLogicalId, String.data_append, List.length_append]
  have hlen : (hash fn).data.length = 32 := h
  have : (trimFromStart base (255 - 32)).data.length + (hash fn).data.length - 32
      = (trimFromStart base (255 - 32)).data.length := by omega
  rw [this, List.drop_left]

/-- A version resource created by the primitive layer: its logical
identifier together with a creation serial number distinguishing distinct
physical resources. -/
structure VersionRecord where
  logicalId : String
  serial : Nat
deriving DecidableEq, Repr

/-- The registry of already-created version resources of a synthesis scope,
keyed by logical identifier. -/
abbrev Registry := List (String × VersionRecord)

/-- Modelled from the spec: the primitive resource layer (an external
collaborator, not in this repository's sources) creates or reuses a
resource keyed by its logical identifier — create-vs-update is decided by
identifier equality.  An unknown id allocates a fresh resource (fresh
serial); a known id returns the existing resource unchanged. -/
def createResource (reg : Registry) (logicalId : String) (serial : Nat) :
    VersionRecord × Registry × Nat :=
  match lookupA reg logicalId with
  | some r => (r, reg, serial)
  | none =>
    let r : VersionRecord := ⟨logicalId, serial⟩
    (r, (logicalId, r) :: reg, serial + 1)

/-- From the source: `createVersionInUsEast1` creates the version custom
resource whose logical id is the derived content-addressed identifier;
against the primitive layer this is a lookup-or-create on that id. -/
def createVersionInUsEast1 (hash : Payload → String) (originalLogicalId : String)
    (fn : Payload) (reg : Registry) (serial : Nat) : VersionRecord × Registry × Nat :=
  createResource reg (deriveLogicalId hash originalLogicalId fn) serial

theorem createResource_found (reg : Registry) (id : String) (serial : Nat) (r : VersionRecord)
    (h : lookupA reg id = some r) : createResource reg id serial = (r, reg, serial) := by
  simp [createResource, h]

theorem lookupA_cons_self {β : Type} (k : String) (v : β) (rest : List (String × β)) :
    lookupA ((k, v) :: rest) k = some v := by
  simp [lookupA_cons]

/-- C1: idempotence of versioning — calling `createVersionInUsEast1` a
second time with an unchanged payload, starting from the registry produced
by the first call, returns the very same version record: the derived
identifier is the same string, the registry is unchanged (no new version
resource is created) and the creation serial does not advance. -/
theorem createVersion_idempotent (hash : Payload → String) (base : String) (fn : Payload)
    (reg : Registry) (serial : Nat) :
    (createVersionInUsEast1 hash base fn
        (createVersionInUsEast1 hash base fn reg serial).2.1
        (createVersionInUsEast1 hash base fn reg serial).2.2)
      = createVersionInUsEast1 hash base fn reg serial := by
  unfold createVersionInUsEast1
  cases h : lookupA reg (deriveLogicalId hash base fn) with
  | some r =>
    rw [createResource_found reg _ serial r h]
    exact createResource_found reg _ serial r h
  | none =>
    simp only [createResource, h, lookupA_cons_self]

/-- C2: identifier length invariant — for a base identifier of length `L`
and a 32-character hash, the derived identifier has length
`min L (255 - 32) + 32`, which never exceeds 255. -/
theorem deriveLogicalId_length (hash : Payload → String) (base : String) (fn : Payload)
    (h : (hash fn).length = 32) :
    (deriveLogicalId hash base fn).length = min base.length (255 - 32) + 32 ∧
    (deriveLogicalId hash base fn).length ≤ 255 := by
  have hlen : (deriveLogicalId hash base fn).length
      = min base.length (255 - 32) + 32 := by
    simp only [deriveLogicalId, String.length_append, trimFromStart_length, h]
  exact ⟨hlen, by omega⟩

/-- A concrete 32-character content hash used to instantiate the abstract
hash parameter in witnesses: 31 zeros followed by the byte sum mod 10. -/
def hashW (p : Payload) : String :=
  String.mk (List.replicate 31 '0' ++ [Char.ofNat (48 + (p.foldr (fun a b => a + b) 0) % 10)])

/-- Witness for C2 at a concrete hash, base identifier and payload. -/
theorem deriveLogicalId_length_witness :
    (hashW [1]).length = 32 ∧
    ((deriveLogicalId hashW "Base" [1]).length = min "Base".length (255 - 32) + 32 ∧
     (deriveLogicalId hashW "Base" [1]).length ≤ 255) :=
  ⟨by decide, deriveLogicalId_length hashW "Base" [1] (by decide)⟩

/-- C3: content-determined identity — with the base identifier fixed,
byte-identical payloads yield the same derived identifier, and payloads on
which the content hash differs (the hash being injective on them) yield
identifiers whose 32-character hash suffixes differ, hence different
identifiers. -/
theorem deriveLogicalId_content_identity (hash : Payload → String) (base : String)
    (p1 p2 : Payload) (h1 : (hash p1).length = 32) (h2 : (hash p2).length = 32) :
    (p1 = p2 → deriveLogicalId hash base p1 = deriveLogicalId hash base p2) ∧
    (hash p1 ≠ hash p2 →
      hashSuffix (deriveLogicalId hash base p1) ≠ hashSuffix (deriveLogicalId hash base p2) ∧
      deriveLogicalId hash base p1 ≠ deriveLogicalId hash base p2) := by
  constructor
  · intro h
    rw [h]
  · intro hne
    have hs1 := hashSuffix_deriveLogicalId hash base p1 h1
    have hs2 := hashSuffix_deriveLogicalId hash base p2 h2
    constructor
    · rw [hs1, hs2]
      exact hne
    · intro h
      apply hne
      rw [← hs1, ← hs2, h]

/-- Witness for C3 at a concrete hash, base and two payloads whose hashes
differ. -/
theorem deriveLogicalId_content_identity_witness :
    (hashW [1]).length = 32 ∧ (hashW [2]).length = 32 ∧
    ((([1] : Payload) = [2] → deriveLogicalId hashW "Base" [1] = deriveLogicalId hashW "Base" [2]) ∧
     (hashW [1] ≠ hashW [2] →
       hashSuffix (deriveLogicalId hashW "Base" [1]) ≠ hashSuffix (deriveLogicalId hashW "Base" [2]) ∧
       deriveLogicalId hashW "Base" [1] ≠ deriveLogicalId hashW "Base" [2])) :=
  ⟨by decide, by decide,
    deriveLogicalId_content_identity hashW "Base" [1] [2] (by decide) (by decide)⟩

/-- The distinct origins / handlers a CloudFront behavior of the
synthesized distribution can route matching requests to. -/
inductive Origin where
  | serverRegional
  | serverEdge
  | imageOptimization
  | custom (n : Nat)
deriving DecidableEq, Repr

/-- A CloudFront behavior, reduced to its routing-relevant content: the
origin / handler assignment. -/
structure Behavior where
  origin : Origin
deriving DecidableEq, Repr

/-- The caller-supplied `cdk.distribution` props (`cfDistributionProps` in
the source, `cdk?.distribution || {}`); only the keys the synthesis logic
interacts with are modelled.  `additionalBehaviors` is a JS object: an
ordered key-value list. -/
structure CfDistributionProps where
  defaultRootObject : Option String
  defaultBehavior : Option Behavior
  additionalBehaviors : List (String × Behavior)

/-- The distribution configuration handed to the `Distribution` construct. -/
structure DistributionConfig where
  defaultRootObject : String
  defaultBehavior : Behavior
  additionalBehaviors : List (String × Behavior)

/-- JS object-spread semantics `{ ...base, ...ext }` on ordered key-value
lists: keys of `base` keep their position with the value overridden when
the key also occurs in `ext`; keys of `ext` absent from `base` are appended
in their own order. -/
def jsObjectMerge (base ext : List (String × Behavior)) : List (String × Behavior) :=
  base.map (fun kv => (kv.1, (lookupA ext kv.1).getD kv.2)) ++
    ext.filter (fun kv => (lookupA base kv.1).isNone)

theorem lookupA_map_keyed {β : Type} (f : String → β → β) (l : List (String × β)) (k : String) :
    lookupA (l.map (fun kv => (kv.1, f kv.1 kv.2))) k = (lookupA l k).map (f k) := by
  induction l with
  | nil => rfl
  | cons kv rest ih =>
    obtain ⟨k0, v0⟩ := kv
    by_cases h : k0 = k
    · subst h
      simp [lookupA_cons]
    · have hb : (k0 == k) = false := by simpa using h
      simp [lookupA_cons, hb, ih]

theorem lookupA_append {β : Type} (l1 l2 : List (String × β)) (k : String) :
    lookupA (l1 ++ l2) k =
      match lookupA l1 k with
      | some v => some v
      | none => lookupA l2 k := by
  induction l1 with
  | nil => simp
  | cons kv rest ih =>
    obtain ⟨k0, v0⟩ := kv
    by_cases h : k0 = k
    · subst h
      simp [lookupA_cons]
    · have hb : (k0 == k) = false := by simpa using h
      simp [lookupA_cons, hb, ih]

theorem lookupA_filter_keyed {β : Type} (p : String → Bool) (l : List (String × β)) (k : String)
    (hp : p k = true) :
    lookupA (l.filter (fun kv => p kv.1)) k = lookupA l k := by
  induction l with
  | nil => rfl
  | cons kv rest ih =>
    obtain ⟨k0, v0⟩ := kv
    by_cases h : k0 = k
    · subst h
      simp [hp, lookupA_cons]
    · have hb : (k0 == k) = false := by simpa using h
      cases hpk : p k0 <;> simp [List.filter_cons, hpk, lookupA_cons, hb, ih]

/-- Lookup in a JS object spread: a key defined by the extension wins;
otherwise the base's binding (if any) is returned. -/
theorem lookupA_jsObjectMerge (base ext : List (String × Behavior)) (k : String) :
    lookupA (jsObjectMerge base ext) k =
      match lookupA ext k with
      | some v => some v
      | none => lookupA base k := by
  unfold jsObjectMerge
  rw [lookupA_append, lookupA_map_keyed (fun k0 v => (lookupA ext k0).getD v)]
  cases hb : lookupA base k with
  | some v0 =>
    cases he : lookupA ext k <;> simp [he]
  | none =>
    rw [lookupA_filter_keyed (fun k0 => (lookupA base k0).isNone) ext k (by simp [hb])]
    cases he : lookupA ext k <;> simp

/-- From the source: `createCloudFrontDistributionForRegional` — the caller
props are spread over `defaultRootObject`, then `defaultBehavior` is set to
the server behavior (so the caller's `defaultBehavior`, if any, is
discarded), and `additionalBehaviors` is the three fixed entries with the
caller's additional behaviors spread last. -/
def createCloudFrontDistributionForRegional (serverBehavior imageBehavior : Behavior)
    (props : CfDistributionProps) : DistributionConfig :=
  { defaultRootObject := props.defaultRootObject.getD ""
    defaultBehavior := serverBehavior
    additionalBehaviors :=
      jsObjectMerge
        [("api/*", serverBehavior),
         ("_next/data/*", serverBehavior),
         ("_next/image*", imageBehavior)]
        props.additionalBehaviors }

/-- From the source: `createCloudFrontDistributionForEdge` — identical to
the regional variant except that the `_next/image*` entry is (deliberately)
absent from the fixed behaviors. -/
def createCloudFrontDistributionForEdge (serverBehavior : Behavior)
    (props : CfDistributionProps) : DistributionConfig :=
  { defaultRootObject := props.defaultRootObject.getD ""
    defaultBehavior := serverBehavior
    additionalBehaviors :=
      jsObjectMerge
        [("api/*", serverBehavior),
         ("_next/data/*", serverBehavior)]
        props.additionalBehaviors }

/-- A route table contains a behavior for a path pattern iff the lookup of
that pattern among its additional behaviors succeeds. -/
def hasBehavior (cfg : DistributionConfig) (pathPattern : String) : Bool :=
  (lookupA cfg.additionalBehaviors pathPattern).isSome

/-- C4 counterexample: synthesizing the edge topology with a caller
override for the `_next/image*` key yields a route table that does contain
a `_next/image*` behavior, refuting the unconditional edge half of the
claim. -/
theorem edge_image_behavior_counterexample :
    hasBehavior
      (createCloudFrontDistributionForEdge ⟨Origin.serverEdge⟩
        ⟨none, none, [("_next/image*", ⟨Origin.custom 0⟩)]⟩)
      "_next/image*" = true := by
  rfl

/-- C4 (amended): absent a caller override of the `_next/image*` key, the
edge-topology route table contains no `_next/image*` behavior, while the
regional-topology route table routes `_next/image*` to the image-transform
behavior. -/
theorem image_behavior_topology_exclusivity (sb img : Behavior) (props : CfDistributionProps)
    (h : lookupA props.additionalBehaviors "_next/image*" = none) :
    hasBehavior (createCloudFrontDistributionForEdge sb props) "_next/image*" = false ∧
    lookupA (createCloudFrontDistributionForRegional sb img props).additionalBehaviors
      "_next/image*" = some img := by
  have hbe : lookupA [("api/*", sb), ("_next/data/*", sb)] "_next/image*" = none := by
    simp [lookupA_cons]
  have hbr : lookupA [("api/*", sb), ("_next/data/*", sb), ("_next/image*", img)]
      "_next/image*" = some img := by
    simp [lookupA_cons]
  constructor
  · simp [hasBehavior, createCloudFrontDistributionForEdge, lookupA_jsObjectMerge, h, hbe]
  · simp [createCloudFrontDistributionForRegional, lookupA_jsObjectMerge, h, hbr]

/-- Witness for the amended C4 at empty caller overrides. -/
theorem image_behavior_topology_exclusivity_witness :
    lookupA ([] : List (String × Behavior)) "_next/image*" = none ∧
    (hasBehavior (createCloudFrontDistributionForEdge ⟨Origin.serverEdge⟩ ⟨none, none, []⟩)
        "_next/image*" = false ∧
     lookupA (createCloudFrontDistributionForRegional ⟨Origin.serverRegional⟩
        ⟨Origin.imageOptimization⟩ ⟨none, none, []⟩).additionalBehaviors
        "_next/image*" = some ⟨Origin.imageOptimization⟩) :=
  ⟨rfl, image_behavior_topology_exclusivity ⟨Origin.serverEdge⟩ ⟨Origin.imageOptimization⟩
    ⟨none, none, []⟩ rfl⟩

/-- C5: override precedence — every caller-supplied additional-behavior
binding wins over the fixed entries; the default behavior's origin /
handler assignment is the server behavior no matter what the caller
supplies; and overrides that do not touch `_next/data/*` (such as one
redefining only `api/*`) leave `_next/data/*` routed to the server
behavior. -/
theorem override_precedence (sb img : Behavior) (props : CfDistributionProps) :
    (∀ k v, lookupA props.additionalBehaviors k = some v →
      lookupA (createCloudFrontDistributionForRegional sb img props).additionalBehaviors k
        = some v) ∧
    (createCloudFrontDistributionForRegional sb img props).defaultBehavior = sb ∧
    (lookupA props.additionalBehaviors "_next/data/*" = none →
      lookupA (createCloudFrontDistributionForRegional sb img props).additionalBehaviors
        "_next/data/*" = some sb) := by
  refine ⟨?_, rfl, ?_⟩
  · intro k v hv
    simp [createCloudFrontDistributionForRegional, lookupA_jsObjectMerge, hv]
  · intro h
    have hbr : lookupA [("api/*", sb), ("_next/data/*", sb), ("_next/image*", img)]
        "_next/data/*" = some sb := by
      simp [lookupA_cons]
    simp [createCloudFrontDistributionForRegional, lookupA_jsObjectMerge, h, hbr]

/-- Witness for C5: overriding only `api/*` takes precedence there, leaves
the default behavior equal to the server behavior, and leaves
`_next/data/*` routed to the server behavior. -/
theorem override_precedence_witness :
    lookupA [("api/*", (⟨Origin.custom 1⟩ : Behavior))] "api/*" = some ⟨Origin.custom 1⟩ ∧
    lookupA (createCloudFrontDistributionForRegional ⟨Origin.serverRegional⟩
        ⟨Origin.imageOptimization⟩
        ⟨none, none, [("api/*", ⟨Origin.custom 1⟩)]⟩).additionalBehaviors "api/*"
      = some ⟨Origin.custom 1⟩ ∧
    (createCloudFrontDistributionForRegional ⟨Origin.serverRegional⟩ ⟨Origin.imageOptimization⟩
        ⟨none, none, [("api/*", ⟨Origin.custom 1⟩)]⟩).defaultBehavior = ⟨Origin.serverRegional⟩ ∧
    lookupA [("api/*", (⟨Origin.custom 1⟩ : Behavior))] "_next/data/*" = none ∧
    lookupA (createCloudFrontDistributionForRegional ⟨Origin.serverRegional⟩
        ⟨Origin.imageOptimization⟩
        ⟨none, none, [("api/*", ⟨Origin.custom 1⟩)]⟩).additionalBehaviors "_next/data/*"
      = some ⟨Origin.serverRegional⟩ :=
  ⟨rfl,
   (override_precedence ⟨Origin.serverRegional⟩ ⟨Origin.imageOptimization⟩
      ⟨none, none, [("api/*", ⟨Origin.custom 1⟩)]⟩).1 "api/*" ⟨Origin.custom 1⟩ rfl,
   (override_precedence ⟨Origin.serverRegional⟩ ⟨Origin.imageOptimization⟩
      ⟨none, none, [("api/*", ⟨Origin.custom 1⟩)]⟩).2.1,
   rfl,
   (override_precedence ⟨Origin.serverRegional⟩ ⟨Origin.imageOptimization⟩
      ⟨none, none, [("api/*", ⟨Origin.custom 1⟩)]⟩).2.2 rfl⟩

/-- A cache policy, reduced to the request headers it forwards into the
cache key computation. -/
structure CachePolicy where
  cacheKeyHeaders : List String

/-- Modelled from the spec: the inherited `useServerBehaviorCachePolicy` of
the generic site layer (not in this repository's sources) builds a cache
policy whose cache key includes exactly the given allow-list of request
headers. -/
def mkServerBehaviorCachePolicy (allowList : List String) : CachePolicy :=
  ⟨allowList⟩

/-- From the source: the overriding `useServerBehaviorCachePolicy` passes
the five framework routing headers as the allow-list. -/
def useServerBehaviorCachePolicy : CachePolicy :=
  mkServerBehaviorCachePolicy
    ["accept", "rsc", "next-router-prefetch", "next-router-state-tree", "next-url"]

/-- C8: cache-key allow-list exactness — the server-behavior cache policy
forwards a header into the cache key iff it is one of the five listed
headers, and the allow-list has exactly five distinct entries. -/
theorem serverBehaviorCachePolicy_exact :
    (∀ h, h ∈ useServerBehaviorCachePolicy.cacheKeyHeaders ↔
      (h = "accept" ∨ h = "rsc" ∨ h = "next-router-prefetch" ∨
       h = "next-router-state-tree" ∨ h = "next-url")) ∧
    useServerBehaviorCachePolicy.cacheKeyHeaders.Nodup ∧
    useServerBehaviorCachePolicy.cacheKeyHeaders.length = 5 := by
  refine ⟨?_, by decide, rfl⟩
  intro h
  simp [useServerBehaviorCachePolicy, mkServerBehaviorCachePolicy]

/-- A deployable compute unit, reduced to what `createRevalidation`
interacts with: the IAM role it executes under and its environment map (a
JS object, an ordered key-value list mutated in place by
`addEnvironment`). -/
structure DeployableUnit where
  role : Nat
  env : List (String × String)
deriving DecidableEq

/-- An SQS queue as configured by `createRevalidation`. -/
structure QueueProps where
  fifo : Bool
  receiveMessageWaitTimeSeconds : Nat
deriving DecidableEq

/-- The revalidation consumer function with its event-source binding. -/
structure ConsumerProps where
  batchSize : Nat
  timeoutSeconds : Nat
deriving DecidableEq

/-- The slice of a site synthesis state that `createRevalidation` reads and
writes: the optionally configured render compute units, the stack region,
and the resources and IAM grants created so far. -/
structure SiteState where
  serverLambdaForRegional : Option DeployableUnit
  serverLambdaForEdge : Option DeployableUnit
  region : String
  queues : List QueueProps
  consumers : List ConsumerProps
  sendGrants : List Nat
deriving DecidableEq

/-- JS property assignment `env[k] = v` on an environment object: an
existing binding of `k` is overwritten in place, otherwise the binding is
appended. -/
def envInsert (e : List (String × String)) (k v : String) : List (String × String) :=
  match e with
  | [] => [(k, v)]
  | (k0, v0) :: rest => if k0 == k then (k0, v) :: rest else (k0, v0) :: envInsert rest k v

theorem lookupA_envInsert_self (e : List (String × String)) (k v : String) :
    lookupA (envInsert e k v) k = some v := by
  induction e with
  | nil => simp [envInsert, lookupA_cons_self]
  | cons kv rest ih =>
    obtain ⟨k0, v0⟩ := kv
    by_cases h : (k0 == k) = true
    · have : k0 = k := by simpa using h
      subst this
      simp [envInsert, lookupA_cons_self]
    · have hb : (k0 == k) = false := by simpa using h
      simp [envInsert, hb, lookupA_cons, ih]

theorem lookupA_envInsert_other (e : List (String × String)) (k v k2 : String)
    (h : k ≠ k2) : lookupA (envInsert e k v) k2 = lookupA e k2 := by
  induction e with
  | nil =>
    have hb : (k == k2) = false := by simpa using h
    simp [envInsert, lookupA_cons, hb]
  | cons kv rest ih =>
    obtain ⟨k0, v0⟩ := kv
    by_cases h0 : (k0 == k) = true
    · have : k0 = k := by simpa using h0
      subst this
      have hb : (k0 == k2) = false := by simpa using h
      simp [envInsert, lookupA_cons, hb]
    · have hb : (k0 == k) = false := by simpa using h0
      simp [envInsert, hb, lookupA_cons, ih]

/-- The deploy-time token standing for the revalidation queue's URL
(`queue.queueUrl` in the source). -/
def revalidationQueueUrl : String := "RevalidationQueueUrl"

/-- From the source: the two environment entries `createRevalidation` adds
to the render compute's environment, in order. -/
def wireServer (u : DeployableUnit) (region : String) : DeployableUnit :=
  { u with
    env := envInsert (envInsert u.env "REVALIDATION_QUEUE_URL" revalidationQueueUrl)
      "REVALIDATION_QUEUE_REGION" region }

/-- From the source: `createRevalidation` — returns immediately when no
render compute is configured; otherwise creates the FIFO long-poll queue
and the consumer (batch size 5, timeout 30s), injects the two queue
environment entries into the render compute (`serverLambdaForRegional ||
serverLambdaForEdge`), and grants that compute's role permission to send
messages to the queue. -/
def createRevalidation (s : SiteState) : SiteState :=
  if s.serverLambdaForRegional.isNone && s.serverLambdaForEdge.isNone then
    s
  else
    match s.serverLambdaForRegional with
    | some u =>
      { s with
        serverLambdaForRegional := some (wireServer u s.region)
        queues := s.queues ++ [⟨true, 20⟩]
        consumers := s.consumers ++ [⟨5, 30⟩]
        sendGrants := s.sendGrants ++ [u.role] }
    | none =>
      match s.serverLambdaForEdge with
      | some u =>
        { s with
          serverLambdaForEdge := some (wireServer u s.region)
          queues := s.queues ++ [⟨true, 20⟩]
          consumers := s.consumers ++ [⟨5, 30⟩]
          sendGrants := s.sendGrants ++ [u.role] }
      | none => s

/-- The render compute `createRevalidation` wires, i.e. the JS expression
`this.serverLambdaForRegional || this.serverLambdaForEdge`. -/
def serverOf (s : SiteState) : Option DeployableUnit :=
  match s.serverLambdaForRegional with
  | some u => some u
  | none => s.serverLambdaForEdge

/-- C6: revalidation no-op — with neither a regional nor an edge render
compute configured, `createRevalidation` returns the site state unchanged:
no queue, no consumer, no grant, and no environment mutation. -/
theorem createRevalidation_noop (s : SiteState)
    (h1 : s.serverLambdaForRegional = none) (h2 : s.serverLambdaForEdge = none) :
    createRevalidation s = s := by
  simp [createRevalidation, h1, h2]

/-- Witness for C6 at a concrete site with no render compute. -/
theorem createRevalidation_noop_witness :
    (SiteState.serverLambdaForRegional ⟨none, none, "us-east-1", [], [], []⟩ = none ∧
     SiteState.serverLambdaForEdge ⟨none, none, "us-east-1", [], [], []⟩ = none) ∧
    createRevalidation ⟨none, none, "us-east-1", [], [], []⟩
      = ⟨none, none, "us-east-1", [], [], []⟩ :=
  ⟨⟨rfl, rfl⟩, createRevalidation_noop ⟨none, none, "us-east-1", [], [], []⟩ rfl rfl⟩

/-- C7: revalidation wiring — with a render compute configured,
`createRevalidation` creates exactly one FIFO queue with a 20-second
receive wait, one consumer with batch size 5, grants the render compute's
role send permission on the queue, and the render compute's environment
afterwards binds `REVALIDATION_QUEUE_URL` to the queue's address and
`REVALIDATION_QUEUE_REGION` to the stack's region while every other
environment key is untouched. -/
theorem createRevalidation_wires (s : SiteState) (u : DeployableUnit)
    (h : serverOf s = some u) :
    (createRevalidation s).queues = s.queues ++ [⟨true, 20⟩] ∧
    (createRevalidation s).consumers = s.consumers ++ [⟨5, 30⟩] ∧
    (createRevalidation s).sendGrants = s.sendGrants ++ [u.role] ∧
    serverOf (createRevalidation s) = some (wireServer u s.region) ∧
    lookupA (wireServer u s.region).env "REVALIDATION_QUEUE_URL" = some revalidationQueueUrl ∧
    lookupA (wireServer u s.region).env "REVALIDATION_QUEUE_REGION" = some s.region ∧
    (∀ k, k ≠ "REVALIDATION_QUEUE_URL" → k ≠ "REVALIDATION_QUEUE_REGION" →
      lookupA (wireServer u s.region).env k = lookupA u.env k) := by
  have henv1 : lookupA (wireServer u s.region).env "REVALIDATION_QUEUE_URL"
      = some revalidationQueueUrl := by
    unfold wireServer
    rw [lookupA_envInsert_other _ _ _ _ (by decide), lookupA_envInsert_self]
  have henv2 : lookupA (wireServer u s.region).env "REVALIDATION_QUEUE_REGION"
      = some s.region := by
    unfold wireServer
    rw [lookupA_envInsert_self]
  have henv3 : ∀ k, k ≠ "REVALIDATION_QUEUE_URL" → k ≠ "REVALIDATION_QUEUE_REGION" →
      lookupA (wireServer u s.region).env k = lookupA u.env k := by
    intro k hk1 hk2
    unfold wireServer
    rw [lookupA_envInsert_other _ _ _ _ (fun he => hk2 he.symm),
      lookupA_envInsert_other _ _ _ _ (fun he => hk1 he.symm)]
  cases hr : s.serverLambdaForRegional with
  | some u0 =>
    have hu : u0 = u := by simpa [serverOf, hr] using h
    subst hu
    refine ⟨?_, ?_, ?_, ?_, henv1, henv2, henv3⟩ <;>
      simp [createRevalidation, serverOf, hr]
  | none =>
    have he : s.serverLambdaForEdge = some u := by simpa [serverOf, hr] using h
    refine ⟨?_, ?_, ?_, ?_, henv1, henv2, henv3⟩ <;>
      simp [createRevalidation, serverOf, hr, he]

/-- Witness for C7 at a concrete site whose regional render compute has one
pre-existing environment entry. -/
theorem createRevalidation_wires_witness :
    serverOf ⟨some ⟨7, [("A", "B")]⟩, none, "eu-west-1", [], [], []⟩ = some ⟨7, [("A", "B")]⟩ ∧
    ((createRevalidation ⟨some ⟨7, [("A", "B")]⟩, none, "eu-west-1", [], [], []⟩).queues
        = [] ++ [⟨true, 20⟩] ∧
     (createRevalidation ⟨some ⟨7, [("A", "B")]⟩, none, "eu-west-1", [], [], []⟩).consumers
        = [] ++ [⟨5, 30⟩] ∧
     (createRevalidation ⟨some ⟨7, [("A", "B")]⟩, none, "eu-west-1", [], [], []⟩).sendGrants
        = [] ++ [7] ∧
     serverOf (createRevalidation ⟨some ⟨7, [("A", "B")]⟩, none, "eu-west-1", [], [], []⟩)
        = some (wireServer ⟨7, [("A", "B")]⟩ "eu-west-1") ∧
     lookupA (wireServer (⟨7, [("A", "B")]⟩ : DeployableUnit) "eu-west-1").env
        "REVALIDATION_QUEUE_URL" = some revalidationQueueUrl ∧
     lookupA (wireServer (⟨7, [("A", "B")]⟩ : DeployableUnit) "eu-west-1").env
        "REVALIDATION_QUEUE_REGION" = some "eu-west-1" ∧
     (∀ k, k ≠ "REVALIDATION_QUEUE_URL" → k ≠ "REVALIDATION_QUEUE_REGION" →
       lookupA (wireServer (⟨7, [("A", "B")]⟩ : DeployableUnit) "eu-west-1").env k
         = lookupA [("A", "B")] k)) :=
  ⟨rfl, createRevalidation_wires ⟨some ⟨7, [("A", "B")]⟩, none, "eu-west-1", [], [], []⟩
    ⟨7, [("A", "B")]⟩ rfl⟩

/-- Modelled from the spec: IAM wildcard matching of a resource pattern
against an object key (IAM evaluation belongs to the external primitive
layer): `*` matches any, possibly empty, character sequence and every other
character matches itself.  Implemented with a fuel argument large enough
for every reachable call so that the function is structurally recursive. -/
def globMatchFuel : Nat → List Char → List Char → Bool
  | 0, _, _ => false
  | Nat.succ n, ps, cs =>
    match ps, cs with
    | [], [] => true
    | [], _ :: _ => false
    | '*' :: ps2, [] => globMatchFuel n ps2 []
    | '*' :: ps2, c :: cs2 =>
      globMatchFuel n ps2 (c :: cs2) || globMatchFuel n ('*' :: ps2) cs2
    | _ :: _, [] => false
    | p :: ps2, c :: cs2 => (p == c) && globMatchFuel n ps2 cs2

/-- Wildcard matching with the fuel instantiated to a sufficient bound. -/
def globMatch (ps cs : List Char) : Bool :=
  globMatchFuel (ps.length + cs.length + 1) ps cs

theorem globMatchFuel_star (cs : List Char) (n : Nat) (h : cs.length + 2 ≤ n) :
    globMatchFuel n ['*'] cs = true := by
  induction cs generalizing n with
  | nil =>
    match n, h with
    | Nat.succ (Nat.succ k), _ => rfl
  | cons c cs2 ih =>
    match n, h with
    | Nat.succ m, h =>
      have hm : cs2.length + 2 ≤ m := by
        simp only [List.length_cons] at h
        omega
      simp [globMatchFuel, ih m hm]

/-- The pattern `*` matches every object key. -/
theorem globMatch_star (cs : List Char) : globMatch ['*'] cs = true := by
  apply globMatchFuel_star
  simp only [List.length_cons, List.length_nil]
  omega

/-- An S3 grant: the allowed actions and the object-key resource pattern
the grant is scoped to. -/
structure S3Grant where
  actions : List String
  keyPattern : String

/-- From the source (`createImageOptimizationFunction`): the image
function's initial policy allows `s3:GetObject` on
`bucket.arnForObjects("*")`, i.e. the object-key pattern `*`. -/
def imageFunctionGrant : S3Grant := ⟨["s3:GetObject"], "*"⟩

/-- From the source: the image function's environment; the `_assets` key
prefix appears only here, not in the IAM grant. -/
def imageFunctionEnvironment (bucketName : String) : List (String × String) :=
  [("BUCKET_NAME", bucketName), ("BUCKET_KEY_PREFIX", "_assets")]

/-- A grant permits reading an object key iff it lists `s3:GetObject` and
its key pattern matches the key. -/
def grantAllowsRead (g : S3Grant) (key : String) : Bool :=
  g.actions.contains "s3:GetObject" && globMatch g.keyPattern.data key.data

/-- An object key lies under the `_assets` key prefix. -/
def underAssets (key : String) : Bool :=
  "_assets".data.isPrefixOf key.data

/-- C9 counterexample: the image function's grant permits reading the key
`_cache/secret.json`, which does not lie under the `_assets` prefix —
refuting the claim that no object outside the prefix is readable. -/
theorem image_grant_counterexample :
    grantAllowsRead imageFunctionGrant "_cache/secret.json" = true ∧
    underAssets "_cache/secret.json" = false := by
  exact ⟨rfl, rfl⟩

/-- C9 (amended): the image function's grant is read-only in its action
list (`s3:GetObject` only) but is scoped to the whole bucket — it permits
reading every object key; the `_assets` prefix is communicated only through
the `BUCKET_KEY_PREFIX` environment entry, not enforced by the grant. -/
theorem image_grant_covers_all_keys :
    (∀ key : String, grantAllowsRead imageFunctionGrant key = true) ∧
    imageFunctionGrant.actions = ["s3:GetObject"] ∧
    (∀ bucketName, lookupA (imageFunctionEnvironment bucketName) "BUCKET_KEY_PREFIX"
      = some "_assets") := by
  refine ⟨?_, rfl, ?_⟩
  · intro key
    simp [grantAllowsRead, imageFunctionGrant, globMatch_star]
  · intro bucketName
    simp [imageFunctionEnvironment, lookupA_cons]

/-- An edge-lambda-version provider function created in a stack, identified
by its creation index. -/
structure Provider where
  idx : Nat
deriving DecidableEq

/-- A synthesis stack scope: its registered children keyed by construct id,
and the next fresh creation index. -/
structure StackState where
  children : List (String × Provider)
  nextIdx : Nat
deriving DecidableEq

/-- From the source: the fixed construct id of the version provider. -/
def providerId : String := "EdgeLambdaVersionProvider"

/-- From the source: `stack.node.tryFindChild(providerId)`. -/
def tryFindChild (st : StackState) (id : String) : Option Provider :=
  lookupA st.children id

/-- From the source (`createVersionInUsEast1`, provider creation): look the
provider up in the stack's children and create it, registering it under
`providerId`, only when absent. -/
def getOrCreateVersionProvider (st : StackState) : Provider × StackState :=
  match tryFindChild st providerId with
  | some p => (p, st)
  | none =>
    let p : Provider := ⟨st.nextIdx⟩
    (p, ⟨(providerId, p) :: st.children, st.nextIdx + 1⟩)

/-- Repeated invocation of the provider lookup-or-create, state only. -/
def createProviderN : Nat → StackState → StackState
  | 0, st => st
  | Nat.succ n, st => (getOrCreateVersionProvider (createProviderN n st)).2

/-- How many children of the stack are registered under `providerId`. -/
def countProviderChildren (st : StackState) : Nat :=
  (st.children.filter (fun kv => kv.1 == providerId)).length

theorem filter_eq_nil_of_lookupA_none {β : Type} (l : List (String × β)) (k : String)
    (h : lookupA l k = none) : l.filter (fun kv => kv.1 == k) = [] := by
  induction l with
  | nil => rfl
  | cons kv rest ih =>
    obtain ⟨k0, v0⟩ := kv
    rw [lookupA_cons] at h
    by_cases hk : (k0 == k) = true
    · rw [if_pos hk] at h
      exact absurd h (by simp)
    · have hk2 : (k0 == k) = false := by simpa using hk
      rw [if_neg (by simp [hk2])] at h
      simp [List.filter_cons, hk2, ih h]

theorem tryFindChild_after (st : StackState) :
    tryFindChild (getOrCreateVersionProvider st).2 providerId
      = some (getOrCreateVersionProvider st).1 := by
  unfold getOrCreateVersionProvider
  cases h : tryFindChild st providerId with
  | some p => simpa using h
  | none => simp [tryFindChild, lookupA_cons_self]

theorem getOrCreate_after (st : StackState) :
    getOrCreateVersionProvider (getOrCreateVersionProvider st).2
      = ((getOrCreateVersionProvider st).1, (getOrCreateVersionProvider st).2) := by
  have h := tryFindChild_after st
  set p1 := (getOrCreateVersionProvider st).1 with hp
  set st1 := (getOrCreateVersionProvider st).2 with hs
  unfold getOrCreateVersionProvider
  rw [h]

theorem createProviderN_stable (st : StackState) (n : Nat) :
    createProviderN (n + 1) st = (getOrCreateVersionProvider st).2 := by
  induction n with
  | zero => rfl
  | succ m ih =>
    show (getOrCreateVersionProvider (createProviderN (m + 1) st)).2 = _
    rw [ih, getOrCreate_after]

/-- C10: provider uniqueness — starting from a stack holding at most one
provider child, a lookup-or-create leaves at most one provider child; a
second call returns the same provider as the first; and any positive number
of calls leaves the stack in the state reached after the first call (no
further provider is ever created). -/
theorem version_provider_unique (st : StackState)
    (h : countProviderChildren st ≤ 1) :
    countProviderChildren (getOrCreateVersionProvider st).2 ≤ 1 ∧
    (getOrCreateVersionProvider (getOrCreateVersionProvider st).2).1
      = (getOrCreateVersionProvider st).1 ∧
    (∀ n, 1 ≤ n → createProviderN n st = createProviderN 1 st) := by
  refine ⟨?_, ?_, ?_⟩
  · cases hfind : tryFindChild st providerId with
    | some p =>
      simpa [getOrCreateVersionProvider, hfind] using h
    | none =>
      have hnil := filter_eq_nil_of_lookupA_none st.children providerId hfind
      simp [getOrCreateVersionProvider, hfind, countProviderChildren,
        List.filter_cons, hnil]
  · rw [getOrCreate_after]
  · intro n hn
    match n, hn with
    | Nat.succ m, _ =>
      rw [createProviderN_stable st m]
      rfl

/-- Witness for C10 at the empty stack. -/
theorem version_provider_unique_witness :
    countProviderChildren ⟨[], 0⟩ ≤ 1 ∧
    (countProviderChildren (getOrCreateVersionProvider ⟨[], 0⟩).2 ≤ 1 ∧
     (getOrCreateVersionProvider (getOrCreateVersionProvider ⟨[], 0⟩).2).1
        = (getOrCreateVersionProvider ⟨[], 0⟩).1 ∧
     (∀ n, 1 ≤ n → createProviderN n ⟨[], 0⟩ = createProviderN 1 ⟨[], 0⟩)) :=
  ⟨by decide, version_provider_unique ⟨[], 0⟩ (by decide)⟩

end NextSiteSpec
